import Mathlib

/-!
# pmd_uas: RSS ingestion pipeline

A shallow embedding of the producer/consumer pipeline of the repository:

* `internal/postgres/postgres.go` : `SaveToDB`, `SaveArticleMetadata`
* `internal/redis/redis.go`       : `CheckAndSetHash`
* `cmd/producer/hash.go`          : `GenerateHash`
* `cmd/producer/rabbitmq.go`      : `SendToQueue`, `CleanMessage`, `SendCleanToQueue`
* `cmd/consumer/worker.go`        : `ProcessMessage`, `contains`
* `main.go`                       : the producer loop, the consumer loop, `checkAndReconnect`

The external services (PostgreSQL, Redis, RabbitMQ) are explicit state that the
embedded functions transform; the Go standard library functions the code calls
(`strings.Fields`, `strings.Contains`, `encoding/json`) are embedded next to it.
A function that returns an `error` in Go returns it here as an `Option` (`none` for
`nil`) next to the state it leaves; the errors the drivers hand back are inputs.
-/

namespace Pmd

/-! ## Go strings -/

/-- One step of ranging over a Go string. A Go string is a byte sequence; every
library function used here reads it the way `for _, r := range s` does: a
well-formed UTF-8 sequence is one code point, and a byte that starts no
well-formed sequence stands for itself (Go decodes it as `utf8.RuneError` of
width 1). -/
inductive Code where
  | rune (c : Char)
  | bad (b : UInt8)
  deriving DecidableEq, Repr

/-- A Go `string`, as the sequence of its decoding steps. Every Go string is one such
sequence, and two Go strings are equal exactly when their sequences are. (A list
whose `bad` bytes would join into a well-formed sequence stands for no Go string;
what is proved for all lists holds for the Go strings among them.) -/
abbrev GoString := List Code

/-- A Go string literal (well-formed UTF-8 text). -/
def str (s : String) : GoString := s.data.map Code.rune

/-- Go `utf8.ValidString`: no byte of the string is outside a well-formed sequence. -/
def validUTF8 (s : GoString) : Bool :=
  s.all fun u => match u with
    | Code.rune _ => true
    | Code.bad _ => false

/-- Go `unicode.IsSpace`: the Latin-1 cases, then the `White_Space` table. -/
def isSpace (r : Char) : Bool :=
  let n := r.toNat
  if n ≤ 0xFF then
    n == 0x09 || n == 0x0A || n == 0x0B || n == 0x0C || n == 0x0D || n == 0x20
      || n == 0x85 || n == 0xA0
  else
    n == 0x1680 || (0x2000 ≤ n && n ≤ 0x200A) || n == 0x2028 || n == 0x2029
      || n == 0x202F || n == 0x205F || n == 0x3000

/-- The predicate `strings.Fields` splits on; an invalid byte decodes to
`utf8.RuneError` (U+FFFD), which is not white space. -/
def Code.isSpace : Code → Bool
  | Code.rune c => Pmd.isSpace c
  | Code.bad _ => false

/-- The loop of `strings.FieldsFunc`: `cur` is the field being read (`start >= 0`),
`none` between fields (`start < 0`). -/
def fieldsFrom : Option GoString → GoString → List GoString
  | cur, [] =>
    match cur with
    | some w => [w]
    | none => []
  | cur, u :: us =>
    if u.isSpace then
      match cur with
      | some w => w :: fieldsFrom none us
      | none => fieldsFrom none us
    else
      match cur with
      | some w => fieldsFrom (some (w ++ [u])) us
      | none => fieldsFrom (some [u]) us

/-- Go `strings.Fields`: the maximal runs of non-space code points. -/
def Fields (s : GoString) : List GoString := fieldsFrom none s

/-- Go `strings.HasPrefix`. -/
def HasPrefix : GoString → GoString → Bool
  | _, [] => true
  | [], _ :: _ => false
  | a :: s, b :: p => a == b && HasPrefix s p

/-- Go `strings.Contains`: `substr` occurs in `s`. -/
def Contains : GoString → GoString → Bool
  | [], substr => HasPrefix [] substr
  | a :: s, substr => HasPrefix (a :: s) substr || Contains s substr

/-! ## The articles table (`internal/postgres/postgres.go`) -/

/-- A row of `articles`, with the columns the two statements name. `content` and
`priority` are nullable: the INSERT writes `NULL` content and does not list
`priority`. `last_processed_time` is the instant `getCurrentTimestamp` read. -/
structure Row where
  title : GoString
  url : GoString
  published_at : GoString
  mark : GoString
  content : Option GoString
  priority : Option Int
  last_processed_time : Nat
  status : GoString
  img : GoString
  deriving DecidableEq, Repr

/-- The `articles` table. `ON CONFLICT (url)` presupposes a unique index on `url`:
see `Table.uniqueURL`. -/
abbrev Table := List Row

/-- The unique constraint on `url`. -/
def Table.uniqueURL (t : Table) : Prop := (t.map Row.url).Nodup

/-- The rows of `t` whose url is `url`. -/
def Table.rowsFor (t : Table) (url : GoString) : List Row :=
  t.filter fun r => r.url = url

/-- The parameters `$1 .. $4` that `SaveToDB` binds (lines 30-46). -/
structure UpdateArgs where
  content : GoString
  markValue : GoString
  priority : Int
  lastProcessedTime : Nat
  deriving DecidableEq, Repr

/-- `SaveToDB`, lines 30-46: the word count, the priority, and the branch on
`content == ""`. `now` is the reading of `getCurrentTimestamp`. -/
def saveToDBArgs (now : Nat) (content : GoString) : UpdateArgs :=
  let wordCount := (Fields content).length
  let priority : Int := 1
  let priority : Int := if wordCount ≥ 300 then 2 else priority
  if content = [] then
    { content := str "No content available", markValue := str "incomplete",
      priority := 0, lastProcessedTime := now }
  else
    { content := content, markValue := str "complete",
      priority := priority, lastProcessedTime := now }

/-- The statement of `SaveToDB`, lines 48-53:
`UPDATE articles SET content = $1, mark = $2, priority = $3,
last_processed_time = $4 WHERE url = $5`. -/
def execUpdate (a : UpdateArgs) (url : GoString) (t : Table) : Table :=
  t.map fun r =>
    if r.url = url then
      { r with content := some a.content, mark := a.markValue,
               priority := some a.priority,
               last_processed_time := a.lastProcessedTime }
    else r

/-- `SaveToDB(url, content)`: the error returned and the table afterwards.
`connectErr` is the error of `InitDB` and `execErr` the error of `conn.Exec`
(`none` when the call succeeds); a statement that fails changes nothing. -/
def SaveToDB (connectErr execErr : Option GoString) (now : Nat) (url content : GoString)
    (t : Table) : Option GoString × Table :=
  match connectErr with
  | some err => (some err, t)
  | none =>
    let args := saveToDBArgs now content
    match execErr with
    | some err => (some err, t)
    | none => (none, execUpdate args url t)

/-- The assignment list of `ON CONFLICT (url) DO UPDATE SET title = EXCLUDED.title,
published_at = EXCLUDED.published_at, mark = $4, last_processed_time = $5,
status = $6, img = EXCLUDED.img` (lines 80-86), applied to the conflicting row. -/
def conflictUpdate (now : Nat) (title published markValue statusValue imageURL : GoString)
    (r : Row) : Row :=
  { r with title := title, published_at := published, mark := markValue,
           last_processed_time := now, status := statusValue, img := imageURL }

/-- The statement of `SaveArticleMetadata`, lines 78-86:
`INSERT INTO articles (title, url, published_at, mark, content,
last_processed_time, status, img) VALUES ($1, $2, $3, $4, NULL, $5, $6, $7)
ON CONFLICT (url) DO UPDATE SET ...`. `priorityDefault` is the column default of
`priority`, which the INSERT does not list. -/
def execUpsert (priorityDefault : Option Int) (lastProcessedTime : Nat)
    (title url published markValue statusValue imageURL : GoString) (t : Table) : Table :=
  if t.any (fun r => r.url = url) then
    t.map fun r =>
      if r.url = url then
        conflictUpdate lastProcessedTime title published markValue statusValue imageURL r
      else r
  else
    t ++ [{ title := title, url := url, published_at := published, mark := markValue,
            content := none, priority := priorityDefault,
            last_processed_time := lastProcessedTime, status := statusValue,
            img := imageURL }]

/-- `SaveArticleMetadata(conn, title, url, published, imageURL)`: the error returned
and the table afterwards. `execErr` is the error of `conn.Exec` (`none` when the
statement runs); a statement that fails changes nothing. -/
def SaveArticleMetadata (execErr : Option GoString) (priorityDefault : Option Int)
    (now : Nat) (title url published imageURL : GoString) (t : Table) :
    Option GoString × Table :=
  let markValue := str "incomplete"
  let lastProcessedTime := now
  let statusValue := str "process"
  match execErr with
  | some err => (some err, t)
  | none =>
    (none, execUpsert priorityDefault lastProcessedTime title url published markValue
      statusValue imageURL t)

/-! ## The dedup cache (`internal/redis/redis.go`) -/

/-- A key of the Redis keyspace with its value and the instant it expires. -/
structure Entry where
  key : GoString
  value : GoString
  expiresAt : Nat
  deriving DecidableEq, Repr

/-- The Redis keyspace. -/
abbrev Cache := List Entry

/-- Whether `key` is held (set and not yet expired) at instant `now`. -/
def Cache.live (c : Cache) (now : Nat) (key : GoString) : Bool :=
  c.any fun e => e.key = key ∧ now < e.expiresAt

/-- Redis `EXISTS key`: the number of the given keys that exist. -/
def Cache.Exists (c : Cache) (now : Nat) (key : GoString) : Int :=
  if c.live now key then 1 else 0

/-- Redis `SETEX key ttl value`: replaces the key, expiring `ttl` seconds from now. -/
def Cache.SetEX (c : Cache) (now : Nat) (key value : GoString) (ttl : Nat) : Cache :=
  { key := key, value := value, expiresAt := now + ttl } :: c.filter fun e => e.key ≠ key

/-- The argument `24*time.Hour` of `SetEX`, in seconds. -/
def dedupTTL : Nat := 24 * 3600

/-- `CheckAndSetHash(ctx, hash)`, run at instant `now`: the returned flag and the
keyspace afterwards. (A Redis error ends the process through `log.Fatal`.) -/
def CheckAndSetHash (now : Nat) (hash : GoString) (c : Cache) : Bool × Cache :=
  let found := c.Exists now hash
  if found > 0 then
    (false, c)
  else
    (true, c.SetEX now hash (str "exists") dedupTTL)

/-- A sequence of `CheckAndSetHash` calls, each with the instant it runs at: the
flags returned, in order, and the final keyspace. -/
def runChecks : List (Nat × GoString) → Cache → List Bool × Cache
  | [], c => ([], c)
  | (now, k) :: calls, c =>
    let r := CheckAndSetHash now k c
    let rs := runChecks calls r.2
    (r.1 :: rs.1, rs.2)

/-! ## Hashing (`cmd/producer/hash.go`) -/

/-- Go `hex.EncodeToString`'s table `"0123456789abcdef"`. -/
def hextable (n : Nat) : Char :=
  if n < 10 then Char.ofNat (48 + n) else Char.ofNat (87 + n)

/-- Go `hex.EncodeToString`. -/
def hexEncodeToString (src : List UInt8) : GoString :=
  src.flatMap fun b => [Code.rune (hextable (b.toNat / 16)), Code.rune (hextable (b.toNat % 16))]

/-- `GenerateHash(input)`: the hex text of the SHA-256 digest of `input`. The digest
function of `crypto/sha256` is the parameter `sum256`. -/
def GenerateHash (sum256 : GoString → List UInt8) (input : GoString) : GoString :=
  hexEncodeToString (sum256 input)

/-! ## The broker, and everything the pipeline calls -/

/-- An `amqp.Publishing` handed to `ch.Publish` with its routing key. -/
structure Publishing where
  routingKey : GoString
  contentType : GoString
  body : GoString
  deriving DecidableEq, Repr

/-- The calls the two loops make on their collaborators, as they occur. -/
inductive Effect where
  | SaveArticleMetadata (title url published imageURL : GoString)
  | SendToQueue (message routingKey : GoString)
  | ExtractDetik (url : GoString)
  | ExtractTempo (url : GoString)
  | SaveToDB (url content : GoString)
  | SendCleanToQueue (url content : GoString)
  | Ack
  deriving DecidableEq, Repr

/-- The state the pipeline acts on: the Redis keyspace, the `articles` table, the
messages published to the broker (oldest first), and the calls made so far. -/
structure World where
  cache : Cache
  table : Table
  published : List Publishing
  trace : List Effect
  deriving DecidableEq, Repr

/-- The errors the services return to the calls of one loop iteration (`none` where
the call succeeds): `pgx.Connect` (through `InitDB`), `conn.Exec`, `ch.Publish` and
`msg.Ack`. -/
structure Faults where
  pgConnect : Option GoString
  pgExec : Option GoString
  publish : Option GoString
  ack : Option GoString
  deriving DecidableEq, Repr

/-- An iteration in which every call succeeds. -/
def noFaults : Faults := { pgConnect := none, pgExec := none, publish := none, ack := none }

/-- The call `ch.Publish("", routingKey, false, false, msg)`: the error returned and
the messages the broker holds afterwards. -/
def Publish (publishErr : Option GoString) (msg : Publishing) (q : List Publishing) :
    Option GoString × List Publishing :=
  match publishErr with
  | some err => (some err, q)
  | none => (none, q ++ [msg])

/-- `SendToQueue(ch, message, routingKey)`: one `text/plain` publishing. -/
def SendToQueue (publishErr : Option GoString) (message routingKey : GoString)
    (q : List Publishing) : Option GoString × List Publishing :=
  Publish publishErr
    { routingKey := routingKey, contentType := str "text/plain", body := message } q

/-! ## The producer loop (`main.go`, lines 55-93) -/

/-- The fields of `gofeed.Image` the loop reads. -/
structure Image where
  URL : GoString
  deriving DecidableEq, Repr

/-- The fields of `gofeed.Item` the loop reads. -/
structure Item where
  Title : GoString
  Link : GoString
  Published : GoString
  Image : Option Image
  deriving DecidableEq, Repr

/-- Lines 72-75: `imageURL := ""`, then `item.Image.URL` when `item.Image != nil`. -/
def imageURLOf (item : Item) : GoString :=
  match item.Image with
  | some image => image.URL
  | none => str ""

/-- The body of `for _, item := range items` (lines 63-90), run at instant `now`
under the faults `f`. Both errors are only logged: a failed `SaveArticleMetadata`
does not stop the `SendToQueue` that follows. -/
def producerStep (sum256 : GoString → List UInt8) (priorityDefault : Option Int)
    (now : Nat) (f : Faults) (item : Item) (w : World) : World :=
  let hash := GenerateHash sum256 item.Link
  let r := CheckAndSetHash now hash w.cache
  if !r.1 then
    { w with cache := r.2 }
  else
    let imageURL := imageURLOf item
    let saved := SaveArticleMetadata f.pgExec priorityDefault now item.Title item.Link
      item.Published imageURL w.table
    let sent := SendToQueue f.publish item.Link (str "rss-feed") w.published
    { cache := r.2
      table := saved.2
      published := sent.2
      trace := w.trace ++
        [Effect.SaveArticleMetadata item.Title item.Link item.Published imageURL,
         Effect.SendToQueue item.Link (str "rss-feed")] }

/-- The loop over the items of one feed; each item comes with the instant at which
the loop reaches it and the faults of that iteration. -/
def pollItems (sum256 : GoString → List UInt8) (priorityDefault : Option Int) :
    List (Nat × Faults × Item) → World → World
  | [], w => w
  | (now, f, item) :: items, w =>
    pollItems sum256 priorityDefault items
      (producerStep sum256 priorityDefault now f item w)

/-- One pass of `for _, feedURL := range feeds` (lines 56-91): the list holds what
`FetchRSS` returned for each feed; a failed fetch is skipped. -/
def pollCycle (sum256 : GoString → List UInt8) (priorityDefault : Option Int) :
    List (Except GoString (List (Nat × Faults × Item))) → World → World
  | [], w => w
  | Except.error _ :: feeds, w => pollCycle sum256 priorityDefault feeds w
  | Except.ok items :: feeds, w =>
    pollCycle sum256 priorityDefault feeds (pollItems sum256 priorityDefault items w)

/-- The items a pass goes through, in order: those of the feeds that were fetched. -/
def fetchedItems : List (Except GoString (List (Nat × Faults × Item))) →
    List (Nat × Faults × Item)
  | [] => []
  | Except.error _ :: feeds => fetchedItems feeds
  | Except.ok items :: feeds => items ++ fetchedItems feeds

/-- The calls of a trace that are `SaveArticleMetadata` for `url`. -/
def metadataWrites (url : GoString) (tr : List Effect) : List Effect :=
  tr.filter fun e =>
    match e with
    | Effect.SaveArticleMetadata _ u _ _ => u = url
    | _ => false

/-- The calls of a trace that are `SendToQueue` of `url`. -/
def enqueues (url : GoString) (tr : List Effect) : List Effect :=
  tr.filter fun e =>
    match e with
    | Effect.SendToQueue m _ => m = url
    | _ => false

/-! ## Reconnection (`main.go`, lines 139-153) -/

/-- An `*amqp.Connection`, as far as `IsClosed` tells. -/
structure Connection where
  closed : Bool
  deriving DecidableEq, Repr

/-- An `*amqp.Channel`: whether it has been closed. -/
structure Channel where
  closed : Bool
  deriving DecidableEq, Repr

/-- `conn.IsClosed()`. -/
def Connection.IsClosed (conn : Connection) : Bool := conn.closed

/-- `checkAndReconnect(ch, conn)`. `dial` is what `amqp.Dial` returns when called
and `openChannel` what `conn.Channel()` returns on a connection. -/
def checkAndReconnect (dial : Except GoString Connection)
    (openChannel : Connection → Except GoString Channel)
    (ch : Channel) (conn : Connection) : Except GoString (Channel × Connection) :=
  if conn.IsClosed then
    match dial with
    | Except.error err => Except.error err
    | Except.ok conn1 =>
      match openChannel conn1 with
      | Except.error err => Except.error err
      | Except.ok ch1 => Except.ok (ch1, conn1)
  else
    Except.ok (ch, conn)

/-! ## The clean event (`cmd/producer/rabbitmq.go`, lines 89-113) and `encoding/json` -/

/-- The struct `CleanMessage`, with the tags `json:"url"` and `json:"content"`. -/
structure CleanMessage where
  URL : GoString
  Content : GoString
  deriving DecidableEq, Repr

/-- The code point U+FFFD, `unicode.ReplacementChar`. -/
def replacementChar : Char := Char.ofNat 0xFFFD

/-- The table `htmlSafeSet` of `encoding/json`: the ASCII characters written as they
are when HTML escaping is on (what `json.Marshal` uses). -/
def htmlSafeSet (c : Char) : Bool :=
  0x20 ≤ c.toNat && c.toNat < 0x80 && c != '"' && c != '\\' && c != '<' && c != '>'
    && c != '&'

/-- What `appendString` of `encoding/json` writes for one code point. -/
def escapeRune (c : Char) : GoString :=
  if c.toNat < 0x80 then
    if htmlSafeSet c then [Code.rune c]
    else if c = '\\' ∨ c = '"' then [Code.rune '\\', Code.rune c]
    else if c = '\x08' then [Code.rune '\\', Code.rune 'b']
    else if c = '\x0c' then [Code.rune '\\', Code.rune 'f']
    else if c = '\n' then [Code.rune '\\', Code.rune 'n']
    else if c = '\r' then [Code.rune '\\', Code.rune 'r']
    else if c = '\t' then [Code.rune '\\', Code.rune 't']
    else
      [Code.rune '\\', Code.rune 'u', Code.rune '0', Code.rune '0',
       Code.rune (hextable (c.toNat / 16)), Code.rune (hextable (c.toNat % 16))]
  else if c = Char.ofNat 0x2028 ∨ c = Char.ofNat 0x2029 then
    [Code.rune '\\', Code.rune 'u', Code.rune '2', Code.rune '0', Code.rune '2',
     Code.rune (hextable (c.toNat % 16))]
  else [Code.rune c]

/-- What `appendString` writes for one decoding step: an invalid byte becomes the
six characters `\ufffd`. -/
def escapeCode : Code → GoString
  | Code.rune c => escapeRune c
  | Code.bad _ =>
    [Code.rune '\\', Code.rune 'u', Code.rune 'f', Code.rune 'f', Code.rune 'f',
     Code.rune 'd']

/-- The function `appendString(dst, src, escapeHTML = true)` of `encoding/json`. -/
def appendString (dst src : GoString) : GoString :=
  dst ++ [Code.rune '"'] ++ src.flatMap escapeCode ++ [Code.rune '"']

/-- The body `json.Marshal(CleanMessage{URL: url, Content: content})` builds: the
fields in declaration order under their tag names. -/
def Marshal (m : CleanMessage) : GoString :=
  let b := [Code.rune '\x7b']
  let b := appendString b (str "url")
  let b := b ++ [Code.rune ':']
  let b := appendString b m.URL
  let b := b ++ [Code.rune ',']
  let b := appendString b (str "content")
  let b := b ++ [Code.rune ':']
  let b := appendString b m.Content
  b ++ [Code.rune '\x7d']

/-- `SendCleanToQueue(ch, url, content)`: one `application/json` publishing on
`rss-clean`. (`json.Marshal` returns no error on a struct of two strings.) -/
def SendCleanToQueue (publishErr : Option GoString) (url content : GoString)
    (q : List Publishing) : Option GoString × List Publishing :=
  let body := Marshal { URL := url, Content := content }
  Publish publishErr
    { routingKey := str "rss-clean", contentType := str "application/json", body := body } q

/-- What `encoding/json` turns one decoding step into: "String values encode as JSON
strings coerced to valid UTF-8, replacing invalid bytes with the Unicode
replacement rune." -/
def Code.coerce : Code → Code
  | Code.rune c => Code.rune c
  | Code.bad _ => Code.rune replacementChar

/-- A Go string with every invalid byte replaced by U+FFFD. -/
def coerceUTF8 (s : GoString) : GoString := s.map Code.coerce

/-- The value of a hexadecimal digit, as `getu4` reads it. -/
def hexVal (c : Char) : Option Nat :=
  let n := c.toNat
  if 48 ≤ n ∧ n ≤ 57 then some (n - 48)
  else if 97 ≤ n ∧ n ≤ 102 then some (n - 97 + 10)
  else if 65 ≤ n ∧ n ≤ 70 then some (n - 65 + 10)
  else none

/-- What `getu4` of `encoding/json` reads a hexadecimal digit from; a byte that is
not ASCII is no digit. -/
def Code.hexVal : Code → Option Nat
  | Code.rune c => Pmd.hexVal c
  | Code.bad _ => none

/-- The function `getu4` of `encoding/json`: the number a leading `\uXXXX` denotes. -/
def getu4 (s : GoString) : Option Nat :=
  match s with
  | e :: u :: a :: b :: c :: d :: _ =>
    if e = Code.rune '\\' ∧ u = Code.rune 'u' then
      match a.hexVal, b.hexVal, c.hexVal, d.hexVal with
      | some a, some b, some c, some d => some (((a * 16 + b) * 16 + c) * 16 + d)
      | _, _, _, _ => none
    else none
  | _ => none

/-- Go `utf16.IsSurrogate`. -/
def isSurrogate (r : Nat) : Bool := 0xD800 ≤ r && r < 0xE000

/-- Go `utf16.DecodeRune`: the code point of a surrogate pair, U+FFFD when the two
halves are not a pair. -/
def utf16DecodeRune (r1 r2 : Nat) : Nat :=
  if 0xD800 ≤ r1 ∧ r1 < 0xDC00 ∧ 0xDC00 ≤ r2 ∧ r2 < 0xE000 then
    (r1 - 0xD800) * 1024 + (r2 - 0xDC00) + 0x10000
  else 0xFFFD

/-- The loop of `unquoteBytes` of `encoding/json`, reading a string literal after its
opening quote up to the closing one: the text read so far is `acc`; the result is
the decoded text and the input left after the closing quote. Every round consumes
input, so a `fuel` above the length of the input is never used up. -/
def unquoteFrom : Nat → GoString → GoString → Option (GoString × GoString)
  | 0, _, _ => none
  | _ + 1, _, [] => none
  | fuel + 1, acc, Code.bad _ :: rest =>
    unquoteFrom fuel (acc ++ [Code.rune replacementChar]) rest
  | fuel + 1, acc, Code.rune c :: rest =>
    if c = '"' then some (acc, rest)
    else if c = '\\' then
      match rest with
      | [] => none
      | Code.bad _ :: _ => none
      | Code.rune e :: rest1 =>
        if e = '"' ∨ e = '\\' ∨ e = '/' then unquoteFrom fuel (acc ++ [Code.rune e]) rest1
        else if e = 'b' then unquoteFrom fuel (acc ++ [Code.rune '\x08']) rest1
        else if e = 'f' then unquoteFrom fuel (acc ++ [Code.rune '\x0c']) rest1
        else if e = 'n' then unquoteFrom fuel (acc ++ [Code.rune '\n']) rest1
        else if e = 'r' then unquoteFrom fuel (acc ++ [Code.rune '\r']) rest1
        else if e = 't' then unquoteFrom fuel (acc ++ [Code.rune '\t']) rest1
        else if e = 'u' then
          match getu4 (Code.rune c :: rest) with
          | none => none
          | some rr =>
            let rest6 := rest.drop 5
            if isSurrogate rr then
              match getu4 rest6 with
              | none => unquoteFrom fuel (acc ++ [Code.rune replacementChar]) rest6
              | some rr1 =>
                let dec := utf16DecodeRune rr rr1
                if dec ≠ 0xFFFD then
                  unquoteFrom fuel (acc ++ [Code.rune (Char.ofNat dec)]) (rest6.drop 6)
                else unquoteFrom fuel (acc ++ [Code.rune replacementChar]) rest6
            else unquoteFrom fuel (acc ++ [Code.rune (Char.ofNat rr)]) rest6
        else none
    else if c.toNat < 0x20 then none
    else unquoteFrom fuel (acc ++ [Code.rune c]) rest

/-- The JSON white space the scanner of `encoding/json` skips. -/
def isJSONSpace (u : Code) : Bool :=
  u = Code.rune ' ' || u = Code.rune '\t' || u = Code.rune '\r' || u = Code.rune '\n'

/-- Skips JSON white space. -/
def skipSpace (s : GoString) : GoString := s.dropWhile isJSONSpace

/-- A string literal at the head of `s`: its decoded text and the input after it. -/
def readString (s : GoString) : Option (GoString × GoString) :=
  match s with
  | Code.rune c :: rest => if c = '"' then unquoteFrom (rest.length + 1) [] rest else none
  | _ => none

/-- The members of a JSON object after its opening brace or after a comma, for the
objects whose values are all strings: `"key" : "value"` followed by a comma and
further members or by the closing brace; the result is the members read and the
input after the closing brace. Any other input is refused. -/
def readMembers : Nat → GoString → Option (List (GoString × GoString) × GoString)
  | 0, _ => none
  | fuel + 1, s =>
    match readString (skipSpace s) with
    | none => none
    | some (key, s1) =>
      match skipSpace s1 with
      | Code.rune c :: s2 =>
        if c = ':' then
          match readString (skipSpace s2) with
          | none => none
          | some (value, s3) =>
            match skipSpace s3 with
            | Code.rune d :: s4 =>
              if d = ',' then
                match readMembers fuel s4 with
                | none => none
                | some (members, s5) => some ((key, value) :: members, s5)
              else if d = '\x7d' then some ([(key, value)], s4)
              else none
            | _ => none
        else none
      | _ => none

/-- A JSON text that is one object with string values: its members in order. -/
def readObject (data : GoString) : Option (List (GoString × GoString)) :=
  match skipSpace data with
  | Code.rune c :: s1 =>
    if c = '\x7b' then
      match skipSpace s1 with
      | Code.rune d :: s2 =>
        if d = '\x7d' then
          if skipSpace s2 = [] then some [] else none
        else
          match readMembers (s1.length + 1) s1 with
          | some (members, s3) => if skipSpace s3 = [] then some members else none
          | none => none
      | _ => none
    else none
  | _ => none

/-- How `encoding/json` folds a code point of a key to compare it with a field
name without regard to case: ASCII letters to upper case, and the two code points
outside ASCII that fold to an ASCII letter (U+017F to S, U+212A to K). -/
def foldRune (c : Char) : Char :=
  if 97 ≤ c.toNat ∧ c.toNat ≤ 122 then Char.ofNat (c.toNat - 32)
  else if c = Char.ofNat 0x17F then 'S'
  else if c = Char.ofNat 0x212A then 'K'
  else c

/-- The function `foldRune` applied to one decoding step. -/
def Code.fold : Code → Code
  | Code.rune c => Code.rune (foldRune c)
  | Code.bad b => Code.bad b

/-- Whether an (unquoted) object key names the field tagged `tag`: the exact name,
or the name up to case. -/
def keyMatches (key tag : GoString) : Bool :=
  key = tag || key.map Code.fold = tag.map Code.fold

/-- The members of an object stored into a `CleanMessage`, in order: a later member
for the same field overwrites an earlier one, a key that names no field is skipped. -/
def storeMembers (m : CleanMessage) : List (GoString × GoString) → CleanMessage
  | [] => m
  | (key, value) :: members =>
    if keyMatches key (str "url") then storeMembers { m with URL := value } members
    else if keyMatches key (str "content") then storeMembers { m with Content := value } members
    else storeMembers m members

/-- The call `json.Unmarshal(data, &m)` on a zero `CleanMessage`, for the inputs
`readObject` accepts: `none` where it refuses the input. -/
def Unmarshal (data : GoString) : Option CleanMessage :=
  match readObject data with
  | none => none
  | some members => some (storeMembers { URL := [], Content := [] } members)

/-! ## The worker (`cmd/consumer/worker.go`, and `main.go`, lines 124-131) -/

/-- The two extractors the worker dispatches to, as functions from the url to the
text or the error they return (they fetch the page over HTTP). -/
structure Extractors where
  ExtractDetik : GoString → Except GoString GoString
  ExtractTempo : GoString → Except GoString GoString

/-- The function `contains(url, keyword)` of `worker.go`. -/
def contains (url keyword : GoString) : Bool := Contains url keyword

/-- The tail of `ProcessMessage` (lines 30-42) once an extractor returned: an
extractor error ends the call; the errors of `SaveToDB` and `SendCleanToQueue` are
only printed. -/
def afterExtract (now : Nat) (f : Faults) (articleURL : GoString)
    (r : Except GoString GoString) (w : World) : World :=
  match r with
  | Except.error _ => w
  | Except.ok content =>
    let saved := SaveToDB f.pgConnect f.pgExec now articleURL content w.table
    let sent := SendCleanToQueue f.publish articleURL content w.published
    { w with
      table := saved.2
      published := sent.2
      trace := w.trace ++
        [Effect.SaveToDB articleURL content, Effect.SendCleanToQueue articleURL content] }

/-- `ProcessMessage(ch, msg)`, where `body` is `msg.Body`. -/
def ProcessMessage (ex : Extractors) (now : Nat) (f : Faults) (body : GoString)
    (w : World) : World :=
  let articleURL := body
  if contains articleURL (str "detik.com") then
    afterExtract now f articleURL (ex.ExtractDetik articleURL)
      { w with trace := w.trace ++ [Effect.ExtractDetik articleURL] }
  else if contains articleURL (str "tempo.co") then
    afterExtract now f articleURL (ex.ExtractTempo articleURL)
      { w with trace := w.trace ++ [Effect.ExtractTempo articleURL] }
  else
    w

/-- The body of `for msg := range msgs` (lines 124-131): `ProcessMessage`, then
`msg.Ack(false)`, whose error is only logged. -/
def consumeDelivery (ex : Extractors) (now : Nat) (f : Faults) (body : GoString)
    (w : World) : World :=
  let w1 := ProcessMessage ex now f body w
  { w1 with trace := w1.trace ++ [Effect.Ack] }

/-! ## Sample data -/

/-- A row whose extraction has completed. -/
def completeRow : Row :=
  { title := str "t", url := str "https://x/a", published_at := str "2024-01-01",
    mark := str "complete", content := some (str "hello world"), priority := some 1,
    last_processed_time := 0, status := str "process", img := str "" }

/-- A stand-in digest for the samples: the code points of the text, as bytes. -/
def sampleDigest (s : GoString) : List UInt8 :=
  s.map fun u =>
    match u with
    | Code.rune c => c.toNat.toUInt8
    | Code.bad b => b

/-- A feed item, and a second one with the same link. -/
def itemA : Item :=
  { Title := str "first", Link := str "https://x/a", Published := str "p1", Image := none }

/-- The item `itemA` again, as a later entry of the feed. -/
def itemB : Item :=
  { Title := str "again", Link := str "https://x/a", Published := str "p2",
    Image := some { URL := str "https://x/i.png" } }

/-- An item with another link. -/
def itemC : Item :=
  { Title := str "other", Link := str "https://x/c", Published := str "p3", Image := none }

/-- The state before anything ran. -/
def emptyWorld : World := { cache := [], table := [], published := [], trace := [] }

/-- Extractors that find no text. -/
def sampleExtractors : Extractors :=
  { ExtractDetik := fun _ => Except.ok [], ExtractTempo := fun _ => Except.ok [] }

/-! # Theorems -/

/-! ## `SaveToDB`: the values written -/

theorem saveToDBArgs_empty (now : Nat) :
    saveToDBArgs now [] =
      { content := str "No content available", markValue := str "incomplete",
        priority := 0, lastProcessedTime := now } := by
  simp [saveToDBArgs]

theorem saveToDBArgs_nonempty (now : Nat) (c : GoString) (hc : c ≠ []) :
    saveToDBArgs now c =
      { content := c, markValue := str "complete",
        priority := if (Fields c).length < 300 then 1 else 2,
        lastProcessedTime := now } := by
  simp only [saveToDBArgs, if_neg hc]
  by_cases h : (Fields c).length < 300
  · have h' : ¬ (Fields c).length ≥ 300 := by omega
    simp [h, h']
  · have h' : (Fields c).length ≥ 300 := by omega
    simp [h, h']

theorem execUpdate_saveToDBArgs (now : Nat) (url c : GoString) (t : Table) :
    execUpdate (saveToDBArgs now c) url t =
      t.map fun r =>
        if r.url = url then
          if c = [] then
            { r with content := some (str "No content available"),
                     mark := str "incomplete", priority := some 0,
                     last_processed_time := now }
          else
            { r with content := some c, mark := str "complete",
                     priority := some (if (Fields c).length < 300 then 1 else 2),
                     last_processed_time := now }
        else r := by
  unfold execUpdate
  by_cases hc : c = []
  · subst hc
    simp [saveToDBArgs_empty]
  · simp [saveToDBArgs_nonempty now c hc, hc]

theorem saveToDB_ok (now : Nat) (url c : GoString) (t : Table) :
    SaveToDB none none now url c t = (none, execUpdate (saveToDBArgs now c) url t) := rfl

theorem saveToDB_table_cases (connectErr execErr : Option GoString) (now : Nat)
    (url c : GoString) (t : Table) :
    (SaveToDB connectErr execErr now url c t).2 = execUpdate (saveToDBArgs now c) url t ∨
      (SaveToDB connectErr execErr now url c t).2 = t := by
  cases connectErr with
  | some e => exact Or.inr rfl
  | none =>
    cases execErr with
    | some e => exact Or.inr rfl
    | none => exact Or.inl rfl

/-- C1. For every url and every extracted text `c`, the statement `SaveToDB` runs sets,
on each row whose url matches, content = "No content available", mark =
"incomplete", priority = 0 when `c` is the empty string, and otherwise content = `c`
unchanged, mark = "complete", and priority = 1 when `c` has fewer than 300
whitespace-separated words (`strings.Fields`) and 2 when it has 300 or more; a
call that fails (no connection, or the statement is refused) writes nothing. -/
theorem saveToDB_values (now : Nat) (url c : GoString) (t : Table) :
    SaveToDB none none now url c t =
      (none, t.map fun r =>
        if r.url = url then
          if c = [] then
            { r with content := some (str "No content available"),
                     mark := str "incomplete", priority := some 0,
                     last_processed_time := now }
          else
            { r with content := some c, mark := str "complete",
                     priority := some (if (Fields c).length < 300 then 1 else 2),
                     last_processed_time := now }
        else r) ∧
    ∀ connectErr execErr : Option GoString,
      (SaveToDB connectErr execErr now url c t).2 = (SaveToDB none none now url c t).2 ∨
        (SaveToDB connectErr execErr now url c t).2 = t := by
  constructor
  · rw [saveToDB_ok, execUpdate_saveToDBArgs]
  · intro connectErr execErr
    rw [saveToDB_ok]
    exact saveToDB_table_cases connectErr execErr now url c t

/-! ## `SaveToDB`: priority and word count -/

/-- C8, counterexample. The empty text and a text of one space both have word count 0,
yet `SaveToDB` stores priority 0 for the first and priority 1 for the second. -/
theorem priority_not_function_of_wordCount :
    (Fields []).length = 0 ∧ (Fields (str " ")).length = 0 ∧
      (saveToDBArgs 0 []).priority = 0 ∧ (saveToDBArgs 0 (str " ")).priority = 1 ∧
      (SaveToDB none none 0 (str "https://x/a") [] [completeRow]).2.map Row.priority =
        [some 0] ∧
      (SaveToDB none none 0 (str "https://x/a") (str " ") [completeRow]).2.map
        Row.priority = [some 1] := by
  decide

/-- C8, amended. The priority `SaveToDB` stores is a function of the word count and of
whether the text is empty: two texts that are both empty or both non-empty and have
the same number of whitespace-separated words get the same priority; the empty text
gets priority 0, and a non-empty text with word count 0 gets priority 1. -/
theorem priority_function_of_wordCount_and_emptiness (now1 now2 : Nat) (c1 c2 : GoString)
    (hempty : c1 = [] ↔ c2 = [])
    (hwords : (Fields c1).length = (Fields c2).length) :
    (saveToDBArgs now1 c1).priority = (saveToDBArgs now2 c2).priority ∧
      (saveToDBArgs now1 []).priority = 0 ∧
      (c1 ≠ [] → (Fields c1).length = 0 → (saveToDBArgs now1 c1).priority = 1) := by
  refine ⟨?_, by simp [saveToDBArgs_empty], ?_⟩
  · by_cases h1 : c1 = []
    · have h2 : c2 = [] := hempty.mp h1
      subst h1; subst h2
      simp [saveToDBArgs_empty]
    · have h2 : c2 ≠ [] := fun h => h1 (hempty.mpr h)
      simp [saveToDBArgs_nonempty _ _ h1, saveToDBArgs_nonempty _ _ h2, hwords]
  · intro h1 h0
    simp [saveToDBArgs_nonempty _ _ h1, h0]

theorem priority_function_of_wordCount_and_emptiness_witness :
    ((str "a b" = [] ↔ str "c d" = []) ∧
      (Fields (str "a b")).length = (Fields (str "c d")).length) ∧
    ((saveToDBArgs 1 (str "a b")).priority = (saveToDBArgs 2 (str "c d")).priority ∧
      (saveToDBArgs 1 []).priority = 0 ∧
      (str "a b" ≠ [] → (Fields (str "a b")).length = 0 →
        (saveToDBArgs 1 (str "a b")).priority = 1)) :=
  ⟨⟨by decide, by decide⟩,
    priority_function_of_wordCount_and_emptiness 1 2 (str "a b") (str "c d")
      (by decide) (by decide)⟩

/-! ## `SaveToDB`: the frame -/

theorem forall₂_same {α : Type} (R : α → α → Prop) (h : ∀ a, R a a) (l : List α) :
    List.Forall₂ R l l := by
  induction l with
  | nil => exact List.Forall₂.nil
  | cons a l ih => exact List.Forall₂.cons (h a) ih

theorem execUpdate_frame (a : UpdateArgs) (url : GoString) (t : Table) :
    List.Forall₂
        (fun r r' => r'.url = r.url ∧ r'.title = r.title ∧
          r'.published_at = r.published_at ∧ r'.status = r.status ∧ r'.img = r.img ∧
          (r.url ≠ url → r' = r))
        t (execUpdate a url t) ∧
      ((∀ r ∈ t, r.url ≠ url) → execUpdate a url t = t) := by
  unfold execUpdate
  constructor
  · induction t with
    | nil => simp
    | cons r t ih =>
      simp only [List.map_cons]
      refine List.Forall₂.cons ?_ ih
      by_cases h : r.url = url <;> simp [h]
  · intro h
    induction t with
    | nil => simp
    | cons r t ih =>
      have hr : r.url ≠ url := h r (List.mem_cons_self _ _)
      have ht : ∀ r ∈ t, r.url ≠ url := fun x hx => h x (List.mem_cons_of_mem _ hx)
      simp [hr, ih ht]

/-- C4. `SaveToDB`, whether its call succeeds or fails, keeps the rows in place and
changes, on a row whose url matches, at most content, mark, priority and
last_processed_time (url, title, published_at, status and img are kept); every row
with another url is unchanged; and when no row has the url the table is exactly
unchanged (nothing is inserted). -/
theorem saveToDB_frame (connectErr execErr : Option GoString) (now : Nat)
    (url content : GoString) (t : Table) :
    List.Forall₂
        (fun r r' => r'.url = r.url ∧ r'.title = r.title ∧
          r'.published_at = r.published_at ∧ r'.status = r.status ∧ r'.img = r.img ∧
          (r.url ≠ url → r' = r))
        t (SaveToDB connectErr execErr now url content t).2 ∧
      ((∀ r ∈ t, r.url ≠ url) → (SaveToDB connectErr execErr now url content t).2 = t) := by
  rcases saveToDB_table_cases connectErr execErr now url content t with h | h
  · rw [h]
    exact execUpdate_frame _ url t
  · rw [h]
    exact ⟨forall₂_same _ (fun r => ⟨rfl, rfl, rfl, rfl, rfl, fun _ => rfl⟩) t, fun _ => rfl⟩

/-! ## `SaveArticleMetadata`: the upsert -/

theorem any_url_iff (t : Table) (url : GoString) :
    t.any (fun r => decide (r.url = url)) = true ↔ ∃ r ∈ t, r.url = url := by
  simp [List.any_eq_true]

theorem saveArticleMetadata_ok (priorityDefault : Option Int) (now : Nat)
    (title url published imageURL : GoString) (t : Table) :
    SaveArticleMetadata none priorityDefault now title url published imageURL t =
      (none, execUpsert priorityDefault now title url published (str "incomplete")
        (str "process") imageURL t) := rfl

theorem execUpsert_present (priorityDefault : Option Int) (now : Nat)
    (title url published markValue statusValue imageURL : GoString) (t : Table)
    (h : ∃ r ∈ t, r.url = url) :
    execUpsert priorityDefault now title url published markValue statusValue imageURL t =
      t.map fun r =>
        if r.url = url then
          conflictUpdate now title published markValue statusValue imageURL r
        else r := by
  have h' := (any_url_iff t url).mpr h
  simp only [execUpsert, h', if_true]

theorem execUpsert_absent (priorityDefault : Option Int) (now : Nat)
    (title url published markValue statusValue imageURL : GoString) (t : Table)
    (h : ¬ ∃ r ∈ t, r.url = url) :
    execUpsert priorityDefault now title url published markValue statusValue imageURL t =
      t ++ [{ title := title, url := url, published_at := published,
              mark := markValue, content := none, priority := priorityDefault,
              last_processed_time := now, status := statusValue,
              img := imageURL }] := by
  have h' : t.any (fun r => decide (r.url = url)) = false := by
    rw [Bool.eq_false_iff]
    intro hc
    exact h ((any_url_iff t url).mp hc)
  simp [execUpsert, h']

theorem conflictUpdate_twice (now : Nat)
    (title url published markValue statusValue imageURL : GoString) (r : Row) :
    (fun r : Row =>
        if r.url = url then
          conflictUpdate now title published markValue statusValue imageURL r
        else r)
      (if r.url = url then
          conflictUpdate now title published markValue statusValue imageURL r
        else r) =
      (if r.url = url then
          conflictUpdate now title published markValue statusValue imageURL r
        else r) := by
  by_cases h : r.url = url <;> simp [h, conflictUpdate]

theorem rowsFor_length_of_unique (t : Table) (url : GoString) (h : t.uniqueURL)
    (hex : ∃ r ∈ t, r.url = url) : (Table.rowsFor t url).length = 1 := by
  induction t with
  | nil => simp at hex
  | cons r t ih =>
    unfold Table.uniqueURL at h
    simp only [List.map_cons, List.nodup_cons, List.mem_map, not_exists, not_and] at h
    by_cases hr : r.url = url
    · have hnone : Table.rowsFor t url = [] := by
        unfold Table.rowsFor
        rw [List.filter_eq_nil_iff]
        intro x hx
        have := h.1 x hx
        simp only [decide_eq_true_eq]
        intro hxu
        exact this (hxu.trans hr.symm)
      unfold Table.rowsFor at hnone ⊢
      simp [List.filter_cons, hr, hnone]
    · obtain ⟨x, hx, hxu⟩ := hex
      have hxt : x ∈ t := by
        rcases List.mem_cons.mp hx with rfl | hxt
        · exact absurd hxu hr
        · exact hxt
      have := ih h.2 ⟨x, hxt, hxu⟩
      unfold Table.rowsFor at this ⊢
      simp [List.filter_cons, hr, this]

theorem rowsFor_nil_of_absent (t : Table) (url : GoString)
    (h : ¬ ∃ r ∈ t, r.url = url) : Table.rowsFor t url = [] := by
  unfold Table.rowsFor
  rw [List.filter_eq_nil_iff]
  intro x hx
  simp only [decide_eq_true_eq]
  intro hxu
  exact h ⟨x, hx, hxu⟩

theorem map_conflictUpdate_url (now : Nat)
    (title url published markValue statusValue imageURL : GoString) (t : Table) :
    (t.map fun r : Row =>
        if r.url = url then
          conflictUpdate now title published markValue statusValue imageURL r
        else r).map Row.url = t.map Row.url := by
  rw [List.map_map]
  apply List.map_congr_left
  intro r _
  by_cases h : r.url = url <;> simp [h, conflictUpdate]

theorem execUpsert_idempotent (priorityDefault : Option Int) (now : Nat)
    (title url published markValue statusValue imageURL : GoString) (t : Table)
    (h : t.uniqueURL) :
    execUpsert priorityDefault now title url published markValue statusValue imageURL
        (execUpsert priorityDefault now title url published markValue statusValue
          imageURL t) =
      execUpsert priorityDefault now title url published markValue statusValue imageURL
        t ∧
    (Table.rowsFor (execUpsert priorityDefault now title url published markValue
      statusValue imageURL t) url).length = 1 ∧
    Table.uniqueURL (execUpsert priorityDefault now title url published markValue
      statusValue imageURL t) ∧
    ∀ r ∈ t, r.url = url →
      ∀ r' ∈ execUpsert priorityDefault now title url published markValue statusValue
          imageURL t,
        r'.url = url → r'.content = r.content := by
  by_cases hany : ∃ r ∈ t, r.url = url
  · have hurl := map_conflictUpdate_url now title url published markValue statusValue
      imageURL t
    have hone := execUpsert_present priorityDefault now title url published markValue
      statusValue imageURL t hany
    have huniq : Table.uniqueURL (execUpsert priorityDefault now title url published
        markValue statusValue imageURL t) := by
      rw [hone]
      unfold Table.uniqueURL
      rw [hurl]
      exact h
    have hany1 : ∃ r ∈ execUpsert priorityDefault now title url published markValue
        statusValue imageURL t, r.url = url := by
      obtain ⟨r, hr, hru⟩ := hany
      rw [hone]
      refine ⟨_, List.mem_map_of_mem _ hr, ?_⟩
      simp [hru, conflictUpdate]
    refine ⟨?_, rowsFor_length_of_unique _ url huniq hany1, huniq, ?_⟩
    · rw [execUpsert_present priorityDefault now title url published markValue
        statusValue imageURL _ hany1, hone, List.map_map]
      apply List.map_congr_left
      intro r _
      exact conflictUpdate_twice now title url published markValue statusValue imageURL r
    · intro r hr hru r' hr' hru'
      rw [hone] at hr'
      obtain ⟨x, hx, rfl⟩ := List.mem_map.mp hr'
      have hxu : x.url = url := by
        by_cases hx' : x.url = url
        · exact hx'
        · simp [hx'] at hru'
      have hxr : x = r := by
        unfold Table.uniqueURL at h
        exact List.inj_on_of_nodup_map h hx hr (hxu.trans hru.symm)
      subst hxr
      simp [hxu, conflictUpdate]
  · have hone := execUpsert_absent priorityDefault now title url published markValue
      statusValue imageURL t hany
    have hany1 : ∃ r ∈ execUpsert priorityDefault now title url published markValue
        statusValue imageURL t, r.url = url := by
      rw [hone]
      exact ⟨_, List.mem_append_right _ (List.mem_singleton_self _), rfl⟩
    refine ⟨?_, ?_, ?_, ?_⟩
    · rw [execUpsert_present priorityDefault now title url published markValue
        statusValue imageURL _ hany1, hone]
      simp only [List.map_append, List.map_cons, List.map_nil, if_true, conflictUpdate]
      congr 1
      conv_rhs => rw [← List.map_id t]
      apply List.map_congr_left
      intro r hr
      have : r.url ≠ url := fun hru => hany ⟨r, hr, hru⟩
      simp [this]
    · rw [hone]
      have hnil := rowsFor_nil_of_absent t url hany
      unfold Table.rowsFor at hnil ⊢
      simp [List.filter_append, hnil]
    · rw [hone]
      unfold Table.uniqueURL at h ⊢
      rw [List.map_append, List.nodup_append]
      refine ⟨h, by simp, ?_⟩
      intro a ha hb
      simp only [List.map_cons, List.map_nil, List.mem_singleton] at hb
      obtain ⟨r, hr, hru⟩ := List.mem_map.mp ha
      exact hany ⟨r, hr, hru.trans hb⟩
    · intro r hr hru
      exact absurd ⟨r, hr, hru⟩ hany

/-- C3. On a table with the unique constraint on url, running `SaveArticleMetadata`
twice with the same input and clock reading (each statement executing) gives the
table one run gives; that table holds exactly one row for the url and still
satisfies the constraint; and a row for the url that was there before keeps its
content. -/
theorem saveArticleMetadata_idempotent (priorityDefault : Option Int) (now : Nat)
    (title url published imageURL : GoString) (t : Table) (h : t.uniqueURL) :
    (SaveArticleMetadata none priorityDefault now title url published imageURL
        (SaveArticleMetadata none priorityDefault now title url published imageURL t).2).2 =
      (SaveArticleMetadata none priorityDefault now title url published imageURL t).2 ∧
    (Table.rowsFor
      (SaveArticleMetadata none priorityDefault now title url published imageURL t).2
      url).length = 1 ∧
    Table.uniqueURL
      (SaveArticleMetadata none priorityDefault now title url published imageURL t).2 ∧
    ∀ r ∈ t, r.url = url →
      ∀ r' ∈ (SaveArticleMetadata none priorityDefault now title url published imageURL
          t).2,
        r'.url = url → r'.content = r.content := by
  simp only [saveArticleMetadata_ok]
  exact execUpsert_idempotent priorityDefault now title url published (str "incomplete")
    (str "process") imageURL t h

theorem saveArticleMetadata_idempotent_witness :
    Table.uniqueURL [completeRow] ∧
    ((SaveArticleMetadata none none 7 (str "t2") (str "https://x/a") (str "p") (str "i")
        (SaveArticleMetadata none none 7 (str "t2") (str "https://x/a") (str "p") (str "i")
          [completeRow]).2).2 =
      (SaveArticleMetadata none none 7 (str "t2") (str "https://x/a") (str "p") (str "i")
        [completeRow]).2 ∧
    (Table.rowsFor
      (SaveArticleMetadata none none 7 (str "t2") (str "https://x/a") (str "p") (str "i")
        [completeRow]).2 (str "https://x/a")).length = 1 ∧
    Table.uniqueURL
      (SaveArticleMetadata none none 7 (str "t2") (str "https://x/a") (str "p") (str "i")
        [completeRow]).2 ∧
    ∀ r ∈ [completeRow], r.url = str "https://x/a" →
      ∀ r' ∈ (SaveArticleMetadata none none 7 (str "t2") (str "https://x/a") (str "p")
          (str "i") [completeRow]).2,
        r'.url = str "https://x/a" → r'.content = r.content) :=
  ⟨by simp [Table.uniqueURL],
    saveArticleMetadata_idempotent none 7 (str "t2") (str "https://x/a") (str "p")
      (str "i") [completeRow] (by simp [Table.uniqueURL])⟩

/-! ## The mark column -/

/-- C5, counterexample. On a table whose row for the url has mark = "complete", a
`SaveArticleMetadata` for that url leaves the row with mark = "incomplete", and so
does a `SaveToDB` with the empty text. -/
theorem mark_not_monotonic :
    completeRow.mark = str "complete" ∧
    (SaveArticleMetadata none none 1 (str "t") (str "https://x/a") (str "2024-01-01")
        (str "") [completeRow]).2.map Row.mark = [str "incomplete"] ∧
    (SaveToDB none none 1 (str "https://x/a") [] [completeRow]).2.map Row.mark =
      [str "incomplete"] := by
  decide

theorem rowsFor_map_ne_nil (t : Table) (url : GoString) (f : Row → Row)
    (hf : ∀ r, (f r).url = r.url) (r : Row) (hr : r ∈ t) (hu : r.url = url) :
    (Table.rowsFor (t.map f) url) ≠ [] := by
  intro hnil
  unfold Table.rowsFor at hnil
  rw [List.filter_eq_nil_iff] at hnil
  have := hnil (f r) (List.mem_map_of_mem _ hr)
  simp [hf, hu] at this

/-- C5, amended. On a table whose row for a url has mark = "complete", for writes whose
statement executes: after `SaveToDB` with any non-empty text the table still has
rows for the url and each has mark = "complete"; after `SaveToDB` with the empty
text, and after `SaveArticleMetadata` with any input for the url, each row for the
url has mark = "incomplete". -/
theorem mark_after_write (priorityDefault : Option Int) (now : Nat)
    (title url published imageURL content : GoString) (t : Table) (r : Row)
    (hr : r ∈ t) (hu : r.url = url) (_hm : r.mark = str "complete") :
    (content ≠ [] →
      Table.rowsFor (SaveToDB none none now url content t).2 url ≠ [] ∧
      ∀ r' ∈ Table.rowsFor (SaveToDB none none now url content t).2 url,
        r'.mark = str "complete") ∧
    (Table.rowsFor (SaveToDB none none now url [] t).2 url ≠ [] ∧
      ∀ r' ∈ Table.rowsFor (SaveToDB none none now url [] t).2 url,
        r'.mark = str "incomplete") ∧
    (Table.rowsFor
        (SaveArticleMetadata none priorityDefault now title url published imageURL t).2
        url ≠ [] ∧
      ∀ r' ∈ Table.rowsFor
          (SaveArticleMetadata none priorityDefault now title url published imageURL t).2
          url,
        r'.mark = str "incomplete") := by
  have hsam := execUpsert_present priorityDefault now title url published
    (str "incomplete") (str "process") imageURL t ⟨r, hr, hu⟩
  simp only [saveArticleMetadata_ok, saveToDB_ok]
  refine ⟨?_, ⟨?_, ?_⟩, ⟨?_, ?_⟩⟩
  · intro hc
    constructor
    · unfold execUpdate
      apply rowsFor_map_ne_nil t url _ _ r hr hu
      intro x
      by_cases hx : x.url = url <;> simp [hx]
    · intro r' hr'
      unfold Table.rowsFor at hr'
      simp only [List.mem_filter, decide_eq_true_eq] at hr'
      obtain ⟨hmem, hurl⟩ := hr'
      simp only [execUpdate, saveToDBArgs_nonempty now content hc] at hmem
      obtain ⟨x, _, rfl⟩ := List.mem_map.mp hmem
      by_cases hx : x.url = url
      · simp [hx]
      · simp [hx] at hurl
  · unfold execUpdate
    apply rowsFor_map_ne_nil t url _ _ r hr hu
    intro x
    by_cases hx : x.url = url <;> simp [hx]
  · intro r' hr'
    unfold Table.rowsFor at hr'
    simp only [List.mem_filter, decide_eq_true_eq] at hr'
    obtain ⟨hmem, hurl⟩ := hr'
    simp only [execUpdate, saveToDBArgs_empty] at hmem
    obtain ⟨x, _, rfl⟩ := List.mem_map.mp hmem
    by_cases hx : x.url = url
    · simp [hx]
    · simp [hx] at hurl
  · rw [hsam]
    apply rowsFor_map_ne_nil t url _ _ r hr hu
    intro x
    by_cases hx : x.url = url <;> simp [hx, conflictUpdate]
  · intro r' hr'
    unfold Table.rowsFor at hr'
    simp only [List.mem_filter, decide_eq_true_eq] at hr'
    obtain ⟨hmem, hurl⟩ := hr'
    rw [hsam] at hmem
    obtain ⟨x, _, rfl⟩ := List.mem_map.mp hmem
    by_cases hx : x.url = url
    · simp [hx, conflictUpdate]
    · simp [hx] at hurl

theorem mark_after_write_witness :
    (completeRow ∈ [completeRow] ∧ completeRow.url = str "https://x/a" ∧
      completeRow.mark = str "complete") ∧
    ((str "hello" ≠ [] →
      Table.rowsFor (SaveToDB none none 3 (str "https://x/a") (str "hello")
          [completeRow]).2 (str "https://x/a") ≠ [] ∧
      ∀ r' ∈ Table.rowsFor (SaveToDB none none 3 (str "https://x/a") (str "hello")
          [completeRow]).2 (str "https://x/a"),
        r'.mark = str "complete") ∧
    (Table.rowsFor (SaveToDB none none 3 (str "https://x/a") [] [completeRow]).2
        (str "https://x/a") ≠ [] ∧
      ∀ r' ∈ Table.rowsFor (SaveToDB none none 3 (str "https://x/a") [] [completeRow]).2
          (str "https://x/a"),
        r'.mark = str "incomplete") ∧
    (Table.rowsFor
        (SaveArticleMetadata none none 3 (str "t") (str "https://x/a") (str "p") (str "")
          [completeRow]).2 (str "https://x/a") ≠ [] ∧
      ∀ r' ∈ Table.rowsFor
          (SaveArticleMetadata none none 3 (str "t") (str "https://x/a") (str "p") (str "")
            [completeRow]).2 (str "https://x/a"),
        r'.mark = str "incomplete")) :=
  ⟨⟨by simp, by decide, by decide⟩,
    mark_after_write none 3 (str "t") (str "https://x/a") (str "p") (str "") (str "hello")
      [completeRow] completeRow (by simp) (by decide) (by decide)⟩

/-! ## The dedup cache -/

theorem checkAndSetHash_of_live (now : Nat) (k : GoString) (c : Cache)
    (h : c.live now k = true) : CheckAndSetHash now k c = (false, c) := by
  simp [CheckAndSetHash, Cache.Exists, h]

theorem checkAndSetHash_of_not_live (now : Nat) (k : GoString) (c : Cache)
    (h : c.live now k = false) :
    CheckAndSetHash now k c = (true, c.SetEX now k (str "exists") dedupTTL) := by
  simp [CheckAndSetHash, Cache.Exists, h]

theorem live_setEX_same (c : Cache) (now s : Nat) (k v : GoString) (ttl : Nat) :
    (c.SetEX now k v ttl).live s k = decide (s < now + ttl) := by
  unfold Cache.SetEX Cache.live
  by_cases hs : s < now + ttl
  · simp [hs]
  · simp only [List.any_cons, hs, decide_False, Bool.false_or]
    simp only [and_false, decide_False, Bool.false_or]
    rw [List.any_eq_false]
    intro e he
    have := (List.mem_filter.mp he).2
    simp only [decide_eq_true_eq, not_and] at this ⊢
    intro hk
    exact absurd hk (by simpa using this)

theorem live_setEX_other (c : Cache) (now s : Nat) (k k' v : GoString) (ttl : Nat)
    (hk : k' ≠ k) : (c.SetEX now k' v ttl).live s k = c.live s k := by
  unfold Cache.SetEX Cache.live
  simp only [List.any_cons, hk, false_and, decide_False, Bool.false_or]
  rw [Bool.eq_iff_iff]
  simp only [List.any_eq_true, List.mem_filter, decide_eq_true_eq]
  constructor
  · rintro ⟨e, ⟨he, _⟩, h⟩
    exact ⟨e, he, h⟩
  · rintro ⟨e, he, hek, hs⟩
    exact ⟨e, ⟨he, fun h => hk (h.symm.trans hek)⟩, hek, hs⟩

theorem live_checkAndSetHash_other (c : Cache) (now s : Nat) (k k' : GoString)
    (hk : k' ≠ k) : (CheckAndSetHash now k' c).2.live s k = c.live s k := by
  by_cases h : c.live now k' = true
  · rw [checkAndSetHash_of_live now k' c h]
  · have h' : c.live now k' = false := by simpa using h
    rw [checkAndSetHash_of_not_live now k' c h']
    exact live_setEX_other c now s k k' _ _ hk

theorem runChecks_held (k : GoString) (limit : Nat) (calls : List (Nat × GoString)) :
    ∀ c : Cache, (∀ s, s < limit → c.live s k = true) →
      (∀ call ∈ calls, call.2 = k → call.1 < limit) →
      (∀ s, s < limit → (runChecks calls c).2.live s k = true) ∧
      ∀ p ∈ calls.zip (runChecks calls c).1, p.1.2 = k → p.2 = false := by
  induction calls with
  | nil =>
    intro c hc _
    exact ⟨by simpa [runChecks] using hc, by simp [runChecks]⟩
  | cons call calls ih =>
    intro c hc hwin
    obtain ⟨now, k'⟩ := call
    have hwin' : ∀ call ∈ calls, call.2 = k → call.1 < limit :=
      fun x hx => hwin x (List.mem_cons_of_mem _ hx)
    have hstep : (∀ s, s < limit → (CheckAndSetHash now k' c).2.live s k = true) ∧
        (k' = k → (CheckAndSetHash now k' c).1 = false) := by
      by_cases hk : k' = k
      · subst hk
        have hnow : now < limit := hwin (now, k') (List.mem_cons_self _ _) rfl
        rw [checkAndSetHash_of_live now k' c (hc now hnow)]
        exact ⟨hc, fun _ => rfl⟩
      · refine ⟨fun s hs => ?_, fun h => absurd h hk⟩
        rw [live_checkAndSetHash_other c now s k k' hk]
        exact hc s hs
    have := ih (CheckAndSetHash now k' c).2 hstep.1 hwin'
    refine ⟨by simpa [runChecks] using this.1, ?_⟩
    intro p hp hpk
    simp only [runChecks, List.zip_cons_cons, List.mem_cons] at hp
    rcases hp with rfl | hp
    · exact hstep.2 hpk
    · exact this.2 p hp hpk

/-- C2. With the cache as explicit state and the calls in sequence: when `k` is not held
at instant `t0`, `CheckAndSetHash(k)` at `t0` returns true and reserves `k` until
`t0 + 24h`; whatever calls follow (for any keys, those for `k` before that expiry),
each of them that is for `k` returns false, and a further call for `k` before the
expiry returns false and leaves the cache as it found it. -/
theorem checkAndSetHash_true_once (c : Cache) (k : GoString) (t0 : Nat)
    (calls : List (Nat × GoString))
    (habsent : c.live t0 k = false)
    (hwindow : ∀ call ∈ calls, call.2 = k → call.1 < t0 + dedupTTL) :
    (CheckAndSetHash t0 k c).1 = true ∧
    (∀ s, (CheckAndSetHash t0 k c).2.live s k = decide (s < t0 + dedupTTL)) ∧
    (∀ p ∈ calls.zip (runChecks calls (CheckAndSetHash t0 k c).2).1,
      p.1.2 = k → p.2 = false) ∧
    ∀ t, t < t0 + dedupTTL →
      CheckAndSetHash t k (runChecks calls (CheckAndSetHash t0 k c).2).2 =
        (false, (runChecks calls (CheckAndSetHash t0 k c).2).2) := by
  rw [checkAndSetHash_of_not_live t0 k c habsent]
  have hlive : ∀ s, (c.SetEX t0 k (str "exists") dedupTTL).live s k =
      decide (s < t0 + dedupTTL) :=
    fun s => live_setEX_same c t0 s k (str "exists") dedupTTL
  have hheld : ∀ s, s < t0 + dedupTTL →
      (c.SetEX t0 k (str "exists") dedupTTL).live s k = true := by
    intro s hs
    rw [hlive s]
    simpa using hs
  have := runChecks_held k (t0 + dedupTTL) calls _ hheld hwindow
  refine ⟨rfl, hlive, this.2, ?_⟩
  intro t ht
  exact checkAndSetHash_of_live t k _ (this.1 t ht)

theorem checkAndSetHash_true_once_witness :
    (Cache.live [] 100 (str "k") = false ∧
      ∀ call ∈ [(200, str "j"), (300, str "k")], call.2 = str "k" →
        call.1 < 100 + dedupTTL) ∧
    ((CheckAndSetHash 100 (str "k") []).1 = true ∧
    (∀ s, (CheckAndSetHash 100 (str "k") []).2.live s (str "k") =
      decide (s < 100 + dedupTTL)) ∧
    (∀ p ∈ [(200, str "j"), (300, str "k")].zip
        (runChecks [(200, str "j"), (300, str "k")]
          (CheckAndSetHash 100 (str "k") []).2).1,
      p.1.2 = str "k" → p.2 = false) ∧
    ∀ t, t < 100 + dedupTTL →
      CheckAndSetHash t (str "k")
          (runChecks [(200, str "j"), (300, str "k")]
            (CheckAndSetHash 100 (str "k") []).2).2 =
        (false, (runChecks [(200, str "j"), (300, str "k")]
            (CheckAndSetHash 100 (str "k") []).2).2)) :=
  ⟨⟨by decide, by decide⟩,
    checkAndSetHash_true_once [] (str "k") 100 [(200, str "j"), (300, str "k")]
      (by decide) (by decide)⟩

/-! ## The producer loop -/

theorem pollItems_append (sum256 : GoString → List UInt8) (priorityDefault : Option Int)
    (xs ys : List (Nat × Faults × Item)) :
    ∀ w : World, pollItems sum256 priorityDefault (xs ++ ys) w =
      pollItems sum256 priorityDefault ys (pollItems sum256 priorityDefault xs w) := by
  induction xs with
  | nil => intro w; rfl
  | cons x xs ih =>
    intro w
    obtain ⟨now, f, item⟩ := x
    simp only [List.cons_append, pollItems]
    exact ih _

theorem pollCycle_eq_pollItems (sum256 : GoString → List UInt8)
    (priorityDefault : Option Int)
    (feeds : List (Except GoString (List (Nat × Faults × Item)))) :
    ∀ w : World, pollCycle sum256 priorityDefault feeds w =
      pollItems sum256 priorityDefault (fetchedItems feeds) w := by
  induction feeds with
  | nil => intro w; rfl
  | cons feed feeds ih =>
    intro w
    cases feed with
    | error e => simp only [pollCycle, fetchedItems]; exact ih w
    | ok items =>
      simp only [pollCycle, fetchedItems, pollItems_append]
      exact ih _

theorem producerStep_of_live (sum256 : GoString → List UInt8)
    (priorityDefault : Option Int) (now : Nat) (f : Faults) (item : Item) (w : World)
    (h : w.cache.live now (GenerateHash sum256 item.Link) = true) :
    producerStep sum256 priorityDefault now f item w = w := by
  simp only [producerStep, checkAndSetHash_of_live now _ w.cache h]
  simp

theorem producerStep_of_not_live (sum256 : GoString → List UInt8)
    (priorityDefault : Option Int) (now : Nat) (f : Faults) (item : Item) (w : World)
    (h : w.cache.live now (GenerateHash sum256 item.Link) = false) :
    producerStep sum256 priorityDefault now f item w =
      { cache := w.cache.SetEX now (GenerateHash sum256 item.Link) (str "exists") dedupTTL
        table := (SaveArticleMetadata f.pgExec priorityDefault now item.Title item.Link
          item.Published (imageURLOf item) w.table).2
        published := (SendToQueue f.publish item.Link (str "rss-feed") w.published).2
        trace := w.trace ++
          [Effect.SaveArticleMetadata item.Title item.Link item.Published (imageURLOf item),
           Effect.SendToQueue item.Link (str "rss-feed")] } := by
  simp only [producerStep, checkAndSetHash_of_not_live now _ w.cache h]
  simp

theorem producerStep_other (sum256 : GoString → List UInt8)
    (priorityDefault : Option Int) (now : Nat) (f : Faults) (item : Item) (w : World)
    (link : GoString)
    (h : GenerateHash sum256 item.Link ≠ GenerateHash sum256 link) :
    (∀ s, (producerStep sum256 priorityDefault now f item w).cache.live s
        (GenerateHash sum256 link) = w.cache.live s (GenerateHash sum256 link)) ∧
    metadataWrites link (producerStep sum256 priorityDefault now f item w).trace =
      metadataWrites link w.trace ∧
    enqueues link (producerStep sum256 priorityDefault now f item w).trace =
      enqueues link w.trace := by
  have hlink : item.Link ≠ link := fun hl => h (by rw [hl])
  by_cases hl : w.cache.live now (GenerateHash sum256 item.Link) = true
  · rw [producerStep_of_live sum256 priorityDefault now f item w hl]
    exact ⟨fun _ => rfl, rfl, rfl⟩
  · have hl' : w.cache.live now (GenerateHash sum256 item.Link) = false := by
      simpa using hl
    rw [producerStep_of_not_live sum256 priorityDefault now f item w hl']
    refine ⟨fun s => live_setEX_other _ _ _ _ _ _ _ h, ?_, ?_⟩
    · simp [metadataWrites, List.filter_append, List.filter_cons, hlink]
    · simp [enqueues, List.filter_append, List.filter_cons, hlink]

theorem pollItems_other (sum256 : GoString → List UInt8)
    (priorityDefault : Option Int) (link : GoString)
    (items : List (Nat × Faults × Item)) :
    ∀ w : World,
      (∀ x ∈ items, GenerateHash sum256 x.2.2.Link ≠ GenerateHash sum256 link) →
      (∀ s, (pollItems sum256 priorityDefault items w).cache.live s
          (GenerateHash sum256 link) = w.cache.live s (GenerateHash sum256 link)) ∧
      metadataWrites link (pollItems sum256 priorityDefault items w).trace =
        metadataWrites link w.trace ∧
      enqueues link (pollItems sum256 priorityDefault items w).trace =
        enqueues link w.trace := by
  induction items with
  | nil => intro w _; exact ⟨fun _ => rfl, rfl, rfl⟩
  | cons x items ih =>
    intro w h
    obtain ⟨now, f, item⟩ := x
    have hx := producerStep_other sum256 priorityDefault now f item w link
      (h (now, f, item) (List.mem_cons_self _ _))
    have hrest := ih (producerStep sum256 priorityDefault now f item w)
      (fun y hy => h y (List.mem_cons_of_mem _ hy))
    simp only [pollItems]
    refine ⟨fun s => ?_, ?_, ?_⟩
    · rw [hrest.1 s, hx.1 s]
    · rw [hrest.2.1, hx.2.1]
    · rw [hrest.2.2, hx.2.2]

/-- C9. In one pass of the item loop over a list that holds the two items `a` and `b`
with the same link, where no other item has that link (nor a link with the same
digest), the link is not held in the dedup cache when the loop reaches `a`, and the
loop reaches `b` before the reservation made for `a` expires: both items get the
same hash, `CheckAndSetHash` returns true for `a` and false for `b`, the step for
`b` changes nothing (no write, no enqueue), and over the whole pass the calls made
for that link are exactly one `SaveArticleMetadata` and one `SendToQueue`; this
holds whatever errors the database and the broker return along the way. -/
theorem duplicate_link_processed_once (sum256 : GoString → List UInt8)
    (priorityDefault : Option Int) (w : World)
    (front mid back : List (Nat × Faults × Item))
    (ta tb : Nat) (fa fb : Faults) (a b : Item)
    (hlink : b.Link = a.Link)
    (hothers : ∀ x ∈ front ++ mid ++ back,
      GenerateHash sum256 x.2.2.Link ≠ GenerateHash sum256 a.Link)
    (hfresh : w.cache.live ta (GenerateHash sum256 a.Link) = false)
    (hwindow : tb < ta + dedupTTL) :
    GenerateHash sum256 b.Link = GenerateHash sum256 a.Link ∧
    (CheckAndSetHash ta (GenerateHash sum256 a.Link)
      (pollItems sum256 priorityDefault front w).cache).1 = true ∧
    (CheckAndSetHash tb (GenerateHash sum256 b.Link)
      (pollItems sum256 priorityDefault (front ++ (ta, fa, a) :: mid) w).cache).1 = false ∧
    producerStep sum256 priorityDefault tb fb b
        (pollItems sum256 priorityDefault (front ++ (ta, fa, a) :: mid) w) =
      pollItems sum256 priorityDefault (front ++ (ta, fa, a) :: mid) w ∧
    metadataWrites a.Link
        (pollItems sum256 priorityDefault
          (front ++ (ta, fa, a) :: mid ++ (tb, fb, b) :: back) w).trace =
      metadataWrites a.Link w.trace ++
        [Effect.SaveArticleMetadata a.Title a.Link a.Published (imageURLOf a)] ∧
    enqueues a.Link
        (pollItems sum256 priorityDefault
          (front ++ (ta, fa, a) :: mid ++ (tb, fb, b) :: back) w).trace =
      enqueues a.Link w.trace ++ [Effect.SendToQueue a.Link (str "rss-feed")] := by
  have hfront : ∀ x ∈ front,
      GenerateHash sum256 x.2.2.Link ≠ GenerateHash sum256 a.Link :=
    fun x hx => hothers x (by simp [hx])
  have hmid : ∀ x ∈ mid, GenerateHash sum256 x.2.2.Link ≠ GenerateHash sum256 a.Link :=
    fun x hx => hothers x (by simp [hx])
  have hback : ∀ x ∈ back, GenerateHash sum256 x.2.2.Link ≠ GenerateHash sum256 a.Link :=
    fun x hx => hothers x (by simp [hx])
  have h1 := pollItems_other sum256 priorityDefault a.Link front w hfront
  have hfresh1 : (pollItems sum256 priorityDefault front w).cache.live ta
      (GenerateHash sum256 a.Link) = false := by rw [h1.1 ta]; exact hfresh
  have hstepa := producerStep_of_not_live sum256 priorityDefault ta fa a
    (pollItems sum256 priorityDefault front w) hfresh1
  have h2 := pollItems_other sum256 priorityDefault a.Link mid
    (producerStep sum256 priorityDefault ta fa a
      (pollItems sum256 priorityDefault front w))
    hmid
  have hsplit : pollItems sum256 priorityDefault (front ++ (ta, fa, a) :: mid) w =
      pollItems sum256 priorityDefault mid
        (producerStep sum256 priorityDefault ta fa a
          (pollItems sum256 priorityDefault front w)) := by
    rw [pollItems_append]
    rfl
  have hlive2 : (pollItems sum256 priorityDefault (front ++ (ta, fa, a) :: mid)
      w).cache.live tb (GenerateHash sum256 b.Link) = true := by
    rw [hsplit, hlink, h2.1 tb, hstepa]
    simp only
    rw [live_setEX_same]
    simpa using hwindow
  have hstepb := producerStep_of_live sum256 priorityDefault tb fb b _ hlive2
  have hall : pollItems sum256 priorityDefault
      (front ++ (ta, fa, a) :: mid ++ (tb, fb, b) :: back) w =
      pollItems sum256 priorityDefault back
        (pollItems sum256 priorityDefault (front ++ (ta, fa, a) :: mid) w) := by
    have : front ++ (ta, fa, a) :: mid ++ (tb, fb, b) :: back =
        (front ++ (ta, fa, a) :: mid) ++ (tb, fb, b) :: back := by simp
    rw [this, pollItems_append]
    simp only [pollItems]
    rw [hstepb]
  have h3 := pollItems_other sum256 priorityDefault a.Link back
    (pollItems sum256 priorityDefault (front ++ (ta, fa, a) :: mid) w) hback
  refine ⟨by rw [hlink], ?_, ?_, hstepb, ?_, ?_⟩
  · rw [checkAndSetHash_of_not_live _ _ _ hfresh1]
  · rw [checkAndSetHash_of_live _ _ _ hlive2]
  · rw [hall, h3.2.1, hsplit, h2.2.1, hstepa]
    simp only
    rw [h1.2.1.symm]
    simp [metadataWrites, List.filter_append, List.filter_cons]
  · rw [hall, h3.2.2, hsplit, h2.2.2, hstepa]
    simp only
    rw [h1.2.2.symm]
    simp [enqueues, List.filter_append, List.filter_cons]

theorem duplicate_link_processed_once_witness :
    (itemB.Link = itemA.Link ∧
      (∀ x ∈ [(1, noFaults, itemC)] ++ [(3, noFaults, itemC)] ++ [(5, noFaults, itemC)],
        GenerateHash sampleDigest x.2.2.Link ≠ GenerateHash sampleDigest itemA.Link) ∧
      emptyWorld.cache.live 2 (GenerateHash sampleDigest itemA.Link) = false ∧
      4 < 2 + dedupTTL) ∧
    (GenerateHash sampleDigest itemB.Link = GenerateHash sampleDigest itemA.Link ∧
    (CheckAndSetHash 2 (GenerateHash sampleDigest itemA.Link)
      (pollItems sampleDigest none [(1, noFaults, itemC)] emptyWorld).cache).1 = true ∧
    (CheckAndSetHash 4 (GenerateHash sampleDigest itemB.Link)
      (pollItems sampleDigest none
        ([(1, noFaults, itemC)] ++ (2, noFaults, itemA) :: [(3, noFaults, itemC)])
        emptyWorld).cache).1 = false ∧
    producerStep sampleDigest none 4 noFaults itemB
        (pollItems sampleDigest none
          ([(1, noFaults, itemC)] ++ (2, noFaults, itemA) :: [(3, noFaults, itemC)])
          emptyWorld) =
      pollItems sampleDigest none
        ([(1, noFaults, itemC)] ++ (2, noFaults, itemA) :: [(3, noFaults, itemC)])
        emptyWorld ∧
    metadataWrites itemA.Link
        (pollItems sampleDigest none
          ([(1, noFaults, itemC)] ++ (2, noFaults, itemA) :: [(3, noFaults, itemC)] ++
            (4, noFaults, itemB) :: [(5, noFaults, itemC)])
          emptyWorld).trace =
      metadataWrites itemA.Link emptyWorld.trace ++
        [Effect.SaveArticleMetadata itemA.Title itemA.Link itemA.Published
          (imageURLOf itemA)] ∧
    enqueues itemA.Link
        (pollItems sampleDigest none
          ([(1, noFaults, itemC)] ++ (2, noFaults, itemA) :: [(3, noFaults, itemC)] ++
            (4, noFaults, itemB) :: [(5, noFaults, itemC)])
          emptyWorld).trace =
      enqueues itemA.Link emptyWorld.trace ++
        [Effect.SendToQueue itemA.Link (str "rss-feed")]) :=
  ⟨⟨by decide, by decide, by decide, by decide⟩,
    duplicate_link_processed_once sampleDigest none emptyWorld [(1, noFaults, itemC)]
      [(3, noFaults, itemC)] [(5, noFaults, itemC)] 2 4 noFaults noFaults itemA itemB
      (by decide) (by decide) (by decide) (by decide)⟩

/-! ## The worker -/

/-- C6. For a message whose URL contains neither "detik.com" nor "tempo.co",
`ProcessMessage` changes nothing (no extractor is called, `SaveToDB` is not called,
nothing is published), and the consumer loop then acknowledges the message: the
only call made for the delivery is one `Ack`. -/
theorem unsupported_source_only_acked (ex : Extractors) (now : Nat) (f : Faults)
    (body : GoString) (w : World)
    (hdetik : contains body (str "detik.com") = false)
    (htempo : contains body (str "tempo.co") = false) :
    ProcessMessage ex now f body w = w ∧
    consumeDelivery ex now f body w = { w with trace := w.trace ++ [Effect.Ack] } := by
  have h : ProcessMessage ex now f body w = w := by
    simp [ProcessMessage, hdetik, htempo]
  exact ⟨h, by simp [consumeDelivery, h]⟩

theorem unsupported_source_only_acked_witness :
    (contains (str "https://unknown.example/a") (str "detik.com") = false ∧
      contains (str "https://unknown.example/a") (str "tempo.co") = false) ∧
    (ProcessMessage sampleExtractors 9 noFaults (str "https://unknown.example/a")
        emptyWorld = emptyWorld ∧
      consumeDelivery sampleExtractors 9 noFaults (str "https://unknown.example/a")
          emptyWorld =
        { emptyWorld with trace := emptyWorld.trace ++ [Effect.Ack] }) :=
  ⟨⟨by decide, by decide⟩,
    unsupported_source_only_acked sampleExtractors 9 noFaults
      (str "https://unknown.example/a") emptyWorld (by decide) (by decide)⟩

/-! ## Reconnection -/

/-- C10, counterexample. Given a closed channel on a connection that is still open,
`checkAndReconnect` dials nothing and returns that same closed channel (although
the broker would have handed out a live connection and channel). -/
theorem checkAndReconnect_returns_closed_channel :
    checkAndReconnect (Except.ok { closed := false })
        (fun _ => Except.ok { closed := false })
        { closed := true } { closed := false } =
      Except.ok ({ closed := true }, { closed := false }) := by
  rfl

/-- C10, amended. Whenever the worker's connection is closed before its consume loop
starts (and the broker accepts the dial and opens a channel), `checkAndReconnect`
returns the freshly established connection and channel; when the connection is
still open it returns the channel and connection it was given, whether that
channel is closed or not. -/
theorem checkAndReconnect_on_connection (dial : Except GoString Connection)
    (openChannel : Connection → Except GoString Channel)
    (ch ch1 : Channel) (conn conn1 : Connection)
    (hdial : dial = Except.ok conn1) (hchannel : openChannel conn1 = Except.ok ch1) :
    (conn.closed = true →
      checkAndReconnect dial openChannel ch conn = Except.ok (ch1, conn1)) ∧
    (conn.closed = false →
      checkAndReconnect dial openChannel ch conn = Except.ok (ch, conn)) := by
  subst hdial
  constructor
  · intro h
    simp [checkAndReconnect, Connection.IsClosed, h, hchannel]
  · intro h
    simp [checkAndReconnect, Connection.IsClosed, h]

theorem checkAndReconnect_on_connection_witness :
    ((Except.ok { closed := false } : Except GoString Connection) =
        Except.ok { closed := false } ∧
      (fun _ : Connection => (Except.ok { closed := false } : Except GoString Channel))
        { closed := false } = Except.ok { closed := false }) ∧
    (((⟨true⟩ : Connection).closed = true →
      checkAndReconnect (Except.ok { closed := false })
          (fun _ => Except.ok { closed := false }) ⟨true⟩ ⟨true⟩ =
        Except.ok (⟨false⟩, ⟨false⟩)) ∧
    ((⟨true⟩ : Connection).closed = false →
      checkAndReconnect (Except.ok { closed := false })
          (fun _ => Except.ok { closed := false }) ⟨true⟩ ⟨true⟩ =
        Except.ok (⟨true⟩, ⟨true⟩))) :=
  ⟨⟨rfl, rfl⟩,
    checkAndReconnect_on_connection (Except.ok { closed := false })
      (fun _ => Except.ok { closed := false }) ⟨true⟩ ⟨false⟩ ⟨true⟩ ⟨false⟩ rfl rfl⟩

/-! ## The clean event -/

theorem hexVal_hextable : ∀ d, d < 16 → hexVal (hextable d) = some d := by
  decide

theorem char_eq_of_toNat (c : Char) (n : Nat) (h : c.toNat = n) : c = Char.ofNat n := by
  rw [← h]
  exact (Char.ofNat_toNat c).symm

theorem unquoteFrom_escapeCode (u : Code) (fuel : Nat) (acc tail : GoString) :
    unquoteFrom (fuel + 1) acc (escapeCode u ++ tail) =
      unquoteFrom fuel (acc ++ [u.coerce]) tail := by
  cases u with
  | bad b =>
    simp [escapeCode, unquoteFrom, getu4, Code.hexVal, hexVal, isSurrogate, Code.coerce,
      replacementChar]
  | rune c =>
    simp only [escapeCode, escapeRune, Code.coerce]
    split_ifs with h1 h2 h3 h4 h5 h6 h7 h8 h9
    · simp only [htmlSafeSet, Bool.and_eq_true, decide_eq_true_eq, bne_iff_ne, ne_eq] at h2
      obtain ⟨⟨⟨⟨⟨⟨hlo, _⟩, hq⟩, hb⟩, _⟩, _⟩, _⟩ := h2
      have hlo' : ¬ c.toNat < 32 := by omega
      simp [unquoteFrom, hq, hb, hlo']
    · rcases h3 with rfl | rfl <;> simp [unquoteFrom]
    · subst h4; simp [unquoteFrom]
    · subst h5; simp [unquoteFrom]
    · subst h6; simp [unquoteFrom]
    · subst h7; simp [unquoteFrom]
    · subst h8; simp [unquoteFrom]
    · have hx := hexVal_hextable (c.toNat / 16) (by omega)
      have hy := hexVal_hextable (c.toNat % 16) (by omega)
      have hzero : hexVal '0' = some 0 := by decide
      have hsum : c.toNat / 16 * 16 + c.toNat % 16 = c.toNat := by omega
      have hsur : isSurrogate c.toNat = false := by
        simp [isSurrogate]; omega
      simp [unquoteFrom, getu4, Code.hexVal, hx, hy, hzero, hsum, hsur, Char.ofNat_toNat]
    · have hq : c ≠ '"' := by rintro rfl; simp at h1
      have hb : c ≠ '\\' := by rintro rfl; simp at h1
      have hd2 : hexVal '2' = some 2 := by decide
      have hd0 : hexVal '0' = some 0 := by decide
      rcases h9 with rfl | rfl
      · have hd8 := hexVal_hextable 8 (by decide)
        simp [unquoteFrom, getu4, Code.hexVal, hd2, hd0, hd8, isSurrogate]
      · have hd9 := hexVal_hextable 9 (by decide)
        simp [unquoteFrom, getu4, Code.hexVal, hd2, hd0, hd9, isSurrogate]
    · have hq : c ≠ '"' := by rintro rfl; simp at h1
      have hb : c ≠ '\\' := by rintro rfl; simp at h1
      have hlo' : ¬ c.toNat < 32 := by omega
      simp [unquoteFrom, hq, hb, hlo']

theorem escapeCode_length_pos (u : Code) : 1 ≤ (escapeCode u).length := by
  cases u with
  | bad b => simp [escapeCode]
  | rune c =>
    simp only [escapeCode, escapeRune]
    split_ifs <;> simp

theorem length_le_flatMap_escapeCode (s : GoString) :
    s.length ≤ (s.flatMap escapeCode).length := by
  induction s with
  | nil => simp
  | cons u s ih =>
    have := escapeCode_length_pos u
    simp only [List.flatMap_cons, List.length_append, List.length_cons]
    omega

theorem unquoteFrom_escape (s : GoString) :
    ∀ (fuel : Nat) (acc tail : GoString), s.length < fuel →
      unquoteFrom fuel acc (s.flatMap escapeCode ++ Code.rune '"' :: tail) =
        some (acc ++ coerceUTF8 s, tail) := by
  induction s with
  | nil =>
    intro fuel acc tail h
    obtain ⟨n, rfl⟩ : ∃ n, fuel = n + 1 := ⟨fuel - 1, by simp at h; omega⟩
    simp [unquoteFrom, coerceUTF8]
  | cons u s ih =>
    intro fuel acc tail h
    obtain ⟨n, rfl⟩ : ∃ n, fuel = n + 1 := ⟨fuel - 1, by simp at h; omega⟩
    have hn : s.length < n := by simpa using h
    rw [List.flatMap_cons, List.append_assoc, unquoteFrom_escapeCode, ih n _ tail hn]
    simp [coerceUTF8]

theorem readString_appendString (s tail : GoString) :
    readString (appendString [] s ++ tail) = some (coerceUTF8 s, tail) := by
  have h := length_le_flatMap_escapeCode s
  simp only [appendString, List.nil_append, List.cons_append, List.append_assoc, readString,
    if_true]
  rw [unquoteFrom_escape s _ [] tail
    (by simp only [List.length_append, List.length_cons]; omega)]
  simp

theorem coerceUTF8_of_valid (s : GoString) (h : validUTF8 s = true) : coerceUTF8 s = s := by
  induction s with
  | nil => rfl
  | cons u s ih =>
    cases u with
    | bad b => simp [validUTF8] at h
    | rune c =>
      have hs : validUTF8 s = true := by
        simp only [validUTF8, List.all_cons, Bool.true_and] at h ⊢
        exact h
      have := ih hs
      simp only [coerceUTF8] at this ⊢
      simp [Code.coerce, this]

theorem marshal_eq (m : CleanMessage) :
    Marshal m =
      Code.rune '\x7b' :: (appendString [] (str "url") ++ Code.rune ':' ::
        (appendString [] m.URL ++ Code.rune ',' ::
          (appendString [] (str "content") ++ Code.rune ':' ::
            (appendString [] m.Content ++ [Code.rune '\x7d'])))) := by
  simp [Marshal, appendString]

theorem skipSpace_appendString (s tail : GoString) :
    skipSpace (appendString [] s ++ tail) = appendString [] s ++ tail := by
  simp [appendString, skipSpace, List.dropWhile, isJSONSpace]

theorem readString_skipSpace_appendString (s tail : GoString) :
    readString (skipSpace (appendString [] s ++ tail)) = some (coerceUTF8 s, tail) := by
  rw [skipSpace_appendString, readString_appendString]

theorem readMembers_two (k1 v1 k2 v2 tail : GoString) (n : Nat) :
    readMembers (n + 2)
        (appendString [] k1 ++ Code.rune ':' ::
          (appendString [] v1 ++ Code.rune ',' ::
            (appendString [] k2 ++ Code.rune ':' ::
              (appendString [] v2 ++ Code.rune '\x7d' :: tail)))) =
      some ([(coerceUTF8 k1, coerceUTF8 v1), (coerceUTF8 k2, coerceUTF8 v2)], tail) := by
  have hcolon : ∀ t, skipSpace (Code.rune ':' :: t) = Code.rune ':' :: t := by
    intro t; simp [skipSpace, List.dropWhile, isJSONSpace]
  have hcomma : ∀ t, skipSpace (Code.rune ',' :: t) = Code.rune ',' :: t := by
    intro t; simp [skipSpace, List.dropWhile, isJSONSpace]
  have hbrace : ∀ t, skipSpace (Code.rune '\x7d' :: t) = Code.rune '\x7d' :: t := by
    intro t; simp [skipSpace, List.dropWhile, isJSONSpace]
  simp [readMembers, readString_skipSpace_appendString, hcolon, hcomma, hbrace]

theorem readObject_marshal (m : CleanMessage) :
    readObject (Marshal m) =
      some [(str "url", coerceUTF8 m.URL), (str "content", coerceUTF8 m.Content)] := by
  rw [marshal_eq]
  have hurl : coerceUTF8 (str "url") = str "url" := by decide
  have hcontent : coerceUTF8 (str "content") = str "content" := by decide
  have hopen : ∀ t, skipSpace (Code.rune '\x7b' :: t) = Code.rune '\x7b' :: t := by
    intro t; simp [skipSpace, List.dropWhile, isJSONSpace]
  have hquote : ∀ (s t : GoString), ∃ t', appendString [] s ++ t = Code.rune '"' :: t' := by
    intro s t
    exact ⟨s.flatMap escapeCode ++ Code.rune '"' :: t, by simp [appendString]⟩
  obtain ⟨t', ht'⟩ := hquote (str "url") (Code.rune ':' ::
        (appendString [] m.URL ++ Code.rune ',' ::
          (appendString [] (str "content") ++ Code.rune ':' ::
            (appendString [] m.Content ++ [Code.rune '\x7d']))))
  have hskip := skipSpace_appendString (str "url") (Code.rune ':' ::
        (appendString [] m.URL ++ Code.rune ',' ::
          (appendString [] (str "content") ++ Code.rune ':' ::
            (appendString [] m.Content ++ [Code.rune '\x7d']))))
  have hlen : ∃ n, (appendString [] (str "url") ++ Code.rune ':' ::
        (appendString [] m.URL ++ Code.rune ',' ::
          (appendString [] (str "content") ++ Code.rune ':' ::
            (appendString [] m.Content ++ [Code.rune '\x7d'])))).length + 1 = n + 2 := by
    rw [ht']
    exact ⟨t'.length, by simp⟩
  obtain ⟨n, hn⟩ := hlen
  have hmem := readMembers_two (str "url") m.URL (str "content") m.Content [] n
  simp only [readObject, hopen, if_true, hskip, hn, hmem, hurl, hcontent]
  rw [ht']
  simp [skipSpace]

theorem unmarshal_marshal (m : CleanMessage) :
    Unmarshal (Marshal m) =
      some { URL := coerceUTF8 m.URL, Content := coerceUTF8 m.Content } := by
  have h1 : keyMatches (str "url") (str "url") = true := by decide
  have h2 : keyMatches (str "content") (str "url") = false := by decide
  have h3 : keyMatches (str "content") (str "content") = true := by decide
  simp [Unmarshal, readObject_marshal, storeMembers, h1, h2, h3]

/-- C7, counterexample. For the url "https://x/a" and a content that is the single byte
0xFF (not valid UTF-8), decoding the body `SendCleanToQueue` builds yields the
content U+FFFD, not the content that was sent. -/
theorem clean_event_invalid_byte_not_preserved :
    Unmarshal (Marshal { URL := str "https://x/a", Content := [Code.bad 0xFF] }) =
        some { URL := str "https://x/a", Content := [Code.rune replacementChar] } ∧
      Unmarshal (Marshal { URL := str "https://x/a", Content := [Code.bad 0xFF] }) ≠
        some { URL := str "https://x/a", Content := [Code.bad 0xFF] } := by
  decide

/-- C7, amended. For every url and content that are valid UTF-8, decoding the JSON body
that `SendCleanToQueue` builds from `CleanMessage{URL: url, Content: content}` gives
back URL = url and Content = content unchanged, the body is a JSON object whose
keys are exactly "url" and "content", in that order, and it is what
`SendCleanToQueue` publishes on "rss-clean" as "application/json" when the broker
accepts the publishing. -/
theorem clean_event_round_trip (url content : GoString) (q : List Publishing)
    (hurl : validUTF8 url = true) (hcontent : validUTF8 content = true) :
    Unmarshal (Marshal { URL := url, Content := content }) =
        some { URL := url, Content := content } ∧
      (readObject (Marshal { URL := url, Content := content })).map (List.map Prod.fst) =
        some [str "url", str "content"] ∧
      SendCleanToQueue none url content q =
        (none,
          q ++ [{ routingKey := str "rss-clean", contentType := str "application/json",
                  body := Marshal { URL := url, Content := content } }]) := by
  refine ⟨?_, ?_, rfl⟩
  · rw [unmarshal_marshal]
    simp [coerceUTF8_of_valid url hurl, coerceUTF8_of_valid content hcontent]
  · rw [readObject_marshal]
    rfl

theorem clean_event_round_trip_witness :
    (validUTF8 (str "https://x/a") = true ∧ validUTF8 (str "hello world") = true) ∧
    (Unmarshal (Marshal { URL := str "https://x/a", Content := str "hello world" }) =
        some { URL := str "https://x/a", Content := str "hello world" } ∧
      (readObject
          (Marshal { URL := str "https://x/a", Content := str "hello world" })).map
          (List.map Prod.fst) =
        some [str "url", str "content"] ∧
      SendCleanToQueue none (str "https://x/a") (str "hello world") [] =
        (none,
          [] ++ [{ routingKey := str "rss-clean", contentType := str "application/json",
                   body := Marshal { URL := str "https://x/a", Content := str "hello world" } }])) :=
  ⟨⟨by decide, by decide⟩,
    clean_event_round_trip (str "https://x/a") (str "hello world") [] (by decide)
      (by decide)⟩

end Pmd
